import Mathlib

/-!
Verification of the fractal-demo repository's core algorithms.

This file shallowly embeds the two generative cores of the repository:

* the elementary cellular automaton (Wolfram Rule 30), in its two source
  forms: the dense integer grid built in
  `src/src/components/WolframGameOfLife.tsx` (`Rule30Visualization`) and the
  packed RGBA byte buffer built by `createRule30Texture` in
  `src/unnamed/part_000`;
* the recursive solid generators: the Menger-sponge cube (`Cube` in
  `src/unnamed/part_000`), the Sierpinski tetrahedron (`Tetrahedron` in
  `src/unnamed/part_001`) and the nested torus ring (`Torus` in
  `src/unnamed/part_002`).

JavaScript numbers are modelled by `ℕ`, `ℤ`, `ℚ` and `ℝ` as appropriate
(positions and sizes of the cube and tetrahedron are exact rationals in the
source; the torus sizes involve `π` and are modelled in `ℝ`).  The mutable
`Uint8Array` of `createRule30Texture` is modelled by explicit state passing
over a total byte map `ℕ → ℕ` whose out-of-range reads return 0 and whose
out-of-range writes are dropped, matching typed-array semantics.
-/

namespace FractalDemo

/-! ### Cellular automaton: the shared next-state rule

Both `Rule30Visualization` (WolframGameOfLife.tsx, lines 33-41) and
`createRule30Texture` (part_000, lines 335-340) compute the next state by

  pattern = (left << 2) | (center << 1) | right
  nextState = (pattern === 1 || pattern === 2 || pattern === 3 || pattern === 4) ? 1 : 0
-/

/-- The Rule 30 next-state function, verbatim from both source sites. -/
def nextState (left center right : ℕ) : ℕ :=
  let pat : ℕ := (left <<< 2) ||| (center <<< 1) ||| right
  if pat = 1 ∨ pat = 2 ∨ pat = 3 ∨ pat = 4 then 1 else 0

/-! ### Dense grid evolution (`Rule30Visualization` in WolframGameOfLife.tsx)

The source seeds `initialState = Array(width).fill(0)` and then sets
`initialState[Math.floor(width / 2)] = 1`.  For `width = 0` the JavaScript
assignment to index 0 auto-extends the empty array to `[1]`; that quirk is
modelled explicitly. -/

/-- The seed row: all dead except a single live cell at `width / 2`. -/
def seedRow (width : ℕ) : List ℕ :=
  if width = 0 then [1]
  else (List.range width).map fun j => if j = width / 2 then 1 else 0

/-- One evolution step over a fixed `width` (the source's inner `j` loop):
`nextGen[j] = nextState(left, center, right)` with the left neighbor 0 at
`j = 0` and the right neighbor 0 at `j = width - 1`.  Out-of-range reads of
`prevGen` yield 0, as JavaScript `undefined` does under `<<`. -/
def stepRowW (width : ℕ) (prevGen : List ℕ) : List ℕ :=
  (List.range width).map fun j =>
    nextState
      (if j = 0 then 0 else prevGen.getD (j - 1) 0)
      (prevGen.getD j 0)
      (if j = width - 1 then 0 else prevGen.getD (j + 1) 0)

/-- The full list of generations, mirroring the source's push loop:
`allGenerations = [initialState]` followed by `maxGenerations - 1`
appends of the evolved previous row. -/
def rule30Grid (width : ℕ) (maxGenerations : ℤ) : List (List ℕ) :=
  (List.range (maxGenerations - 1).toNat).foldl
    (fun allGenerations i =>
      allGenerations ++ [stepRowW width (allGenerations.getD i [])])
    [seedRow width]

/-- The `n`-th generation, as a recursive function (proved below to agree
with the rows of `rule30Grid`). -/
def genAt (width : ℕ) : ℕ → List ℕ
  | 0 => seedRow width
  | n + 1 => stepRowW width (genAt width n)

/-- Rows of `rule30Grid` are iterates of `stepRowW` on the seed. -/
theorem rule30Grid_eq_map_genAt (width : ℕ) (g : ℤ) :
    rule30Grid width g = (List.range ((g - 1).toNat + 1)).map (genAt width) := by
  unfold rule30Grid
  generalize (g - 1).toNat = k
  induction k with
  | zero => simp [genAt, List.range_succ]
  | succ n ih =>
    rw [List.range_succ, List.foldl_append, ih]
    simp [List.range_succ, List.getD, genAt]

theorem rule30Grid_getD (width : ℕ) (g : ℤ) (r : ℕ) (hr : r ≤ (g - 1).toNat) :
    (rule30Grid width g).getD r [] = genAt width r := by
  rw [rule30Grid_eq_map_genAt]
  rw [List.getD_eq_getElem?_getD, List.getElem?_map, List.getElem?_range
    (by omega : r < (g - 1).toNat + 1)]
  rfl

/-! ### Packed-pixel texture evolution (`createRule30Texture` in part_000)

The source allocates `data = new Uint8Array(width * height * 4)`, clears it
(writing alpha 255 every 4 bytes), seeds `data[(0 * width + centerX) * 4] =
255`, and then evolves in place, reading row `y` and writing row `y + 1`. -/

/-- A write to the byte buffer: out-of-range writes are silently dropped,
as on a JavaScript `Uint8Array`. -/
def byteWr (size i v : ℕ) (data : ℕ → ℕ) : ℕ → ℕ :=
  fun j => if i < size ∧ j = i then v else data j

/-- The source's clear loop: `for (i = 0; i < width*height*4; i += 4)` with
`data[i] = 0; data[i+1] = 0; data[i+2] = 0; data[i+3] = 255`. -/
def clearLoop (size count : ℕ) (data : ℕ → ℕ) : ℕ → ℕ :=
  (List.range count).foldl
    (fun d k =>
      byteWr size (4 * k + 3) 255
        (byteWr size (4 * k + 2) 0 (byteWr size (4 * k + 1) 0 (byteWr size (4 * k) 0 d))))
    data

/-- One iteration of the texture evolution's inner `x` loop: read the three
neighbor red bytes of row `y` (out-of-grid neighbors dead), apply the rule,
and write the red and alpha bytes of cell `(y + 1, x)`. -/
def texStep (width size y x : ℕ) (data : ℕ → ℕ) : ℕ → ℕ :=
  let left := if x = 0 then 0 else if 0 < data ((y * width + (x - 1)) * 4) then 1 else 0
  let center := if 0 < data ((y * width + x) * 4) then 1 else 0
  let right := if x = width - 1 then 0 else if 0 < data ((y * width + (x + 1)) * 4) then 1 else 0
  let nextSt := nextState left center right
  let nextIndex := ((y + 1) * width + x) * 4
  byteWr size (nextIndex + 3) 255 (byteWr size nextIndex (nextSt * 255) data)

/-- The full byte buffer produced by `createRule30Texture`: clear, seed the
center of row 0 with red 255, then run the double evolution loop
(`y` up to `height - 2`, `x` over the row). -/
def createRule30Data (width height : ℕ) : ℕ → ℕ :=
  let size := width * height * 4
  let cleared := clearLoop size (width * height) (fun _ => 0)
  let centerX := width / 2
  let seeded := byteWr size ((0 * width + centerX) * 4) 255 cleared
  (List.range (height - 1)).foldl
    (fun d y => (List.range width).foldl (fun d2 x => texStep width size y x d2) d)
    seeded

/-- The red channel of the texture at `(row, col)`. -/
def texRed (width height row col : ℕ) : ℕ :=
  createRule30Data width height ((row * width + col) * 4)

/-! ### Helper lemmas -/

theorem getD_map_range {α : Type} (f : ℕ → α) (n i : ℕ) (dflt : α) :
    ((List.range n).map f).getD i dflt = if i < n then f i else dflt := by
  rw [List.getD_eq_getElem?_getD, List.getElem?_map]
  split
  · rw [List.getElem?_range (by assumption)]; rfl
  · rw [List.getElem?_eq_none (by simpa using by omega)]; rfl

theorem nextState_le_one (l c r : ℕ) : nextState l c r ≤ 1 := by
  simp only [nextState]; split <;> omega

/-- Every cell of every generation is 0 or 1. -/
theorem genAt_getD_le_one (width n c : ℕ) : (genAt width n).getD c 0 ≤ 1 := by
  cases n with
  | zero =>
    simp only [genAt, seedRow]
    split
    · match c with
      | 0 => decide
      | _ + 1 => simp [List.getD]
    · rw [getD_map_range]; split <;> [split <;> omega; omega]
  | succ n =>
    simp only [genAt, stepRowW]
    rw [getD_map_range]
    split
    · exact nextState_le_one _ _ _
    · omega

theorem stepRowW_getD (width : ℕ) (prev : List ℕ) (j : ℕ) (hj : j < width) :
    (stepRowW width prev).getD j 0 =
      nextState
        (if j = 0 then 0 else prev.getD (j - 1) 0)
        (prev.getD j 0)
        (if j = width - 1 then 0 else prev.getD (j + 1) 0) := by
  unfold stepRowW
  rw [getD_map_range, if_pos hj]

/-- Distinct row/column pairs map to distinct flat indices. -/
theorem rowcol_inj {w r1 c1 r2 c2 : ℕ} (h1 : c1 < w) (h2 : c2 < w)
    (h : r1 * w + c1 = r2 * w + c2) : r1 = r2 ∧ c1 = c2 := by
  have hr : r1 = r2 := by
    rcases Nat.lt_trichotomy r1 r2 with hlt | heq | hgt
    · have : (r1 + 1) * w ≤ r2 * w := Nat.mul_le_mul_right w hlt
      simp [Nat.add_mul] at this; omega
    · exact heq
    · have : (r2 + 1) * w ≤ r1 * w := Nat.mul_le_mul_right w hgt
      simp [Nat.add_mul] at this; omega
  subst hr; omega

/-! ### The texture buffer computes the same automaton as the dense grid -/

/-- Invariant of the texture evolution: after the outer loop has produced
row `y`, the red byte of every cell of rows `0..y` is 255 times the dense
grid cell, and later rows are still clear. -/
def TexInv (w h y : ℕ) (d : ℕ → ℕ) : Prop :=
  ∀ r c, r < h → c < w →
    d ((r * w + c) * 4) = if r ≤ y then 255 * (genAt w r).getD c 0 else 0

/-- Red-byte indices of in-range cells are injective in `(row, col)`. -/
theorem redIdx_inj {w r1 c1 r2 c2 : ℕ} (h1 : c1 < w) (h2 : c2 < w)
    (h : (r1 * w + c1) * 4 = (r2 * w + c2) * 4) : r1 = r2 ∧ c1 = c2 :=
  rowcol_inj h1 h2 (Nat.eq_of_mul_eq_mul_right (by omega) h)

theorem clearLoop_red (size count : ℕ) (d : ℕ → ℕ)
    (hd : ∀ j, 4 ∣ j → d j = 0) : ∀ j, 4 ∣ j → clearLoop size count d j = 0 := by
  unfold clearLoop
  induction count generalizing d with
  | zero => simpa using hd
  | succ n ih =>
    intro j hj
    rw [List.range_succ, List.foldl_append]
    simp only [List.foldl_cons, List.foldl_nil, byteWr]
    split_ifs with h1 h2 h3 h4
    · omega
    · rfl
    · rfl
    · rfl
    · exact ih d hd j hj

theorem texInv_seeded (w h : ℕ) (hw : 0 < w) (hh : 0 < h) :
    TexInv w h 0
      (byteWr (w * h * 4) ((0 * w + w / 2) * 4) 255
        (clearLoop (w * h * 4) (w * h) (fun _ => 0))) := by
  have hhalf : w / 2 < w := Nat.div_lt_self hw (by omega)
  have hclear : ∀ j, 4 ∣ j → clearLoop (w * h * 4) (w * h) (fun _ => 0) j = 0 :=
    clearLoop_red _ _ _ (fun _ _ => rfl)
  intro r c hr hc
  have hdvd : (4 : ℕ) ∣ (r * w + c) * 4 := Dvd.intro _ (Nat.mul_comm _ _)
  simp only [byteWr]
  by_cases hidx : (r * w + c) * 4 = (0 * w + w / 2) * 4
  · obtain ⟨hr0, hc0⟩ := redIdx_inj hc (by simpa using hhalf) hidx
    subst hr0; subst hc0
    have hseedlt : (0 * w + w / 2) * 4 < w * h * 4 := by
      have hwh : w ≤ w * h := Nat.le_mul_of_pos_right w hh
      omega
    rw [if_pos ⟨hseedlt, hidx⟩, if_pos (Nat.le_refl 0)]
    have : (genAt w 0).getD (w / 2) 0 = 1 := by
      simp only [genAt, seedRow, if_neg (by omega : ¬ w = 0)]
      rw [getD_map_range, if_pos hhalf]
      simp
    rw [this]
  · rw [if_neg (fun hcon => hidx hcon.2), hclear _ hdvd]
    rcases Nat.eq_zero_or_pos r with hr0 | hrpos
    · subst hr0
      rw [if_pos (Nat.le_refl 0)]
      have hcne : c ≠ w / 2 := fun hceq => hidx (by rw [hceq])
      have : (genAt w 0).getD c 0 = 0 := by
        simp only [genAt, seedRow, if_neg (by omega : ¬ w = 0)]
        rw [getD_map_range, if_pos hc, if_neg hcne]
      rw [this]
    · rw [if_neg (by omega)]

/-- Characterization of a prefix of the inner `x` loop: cells `(y+1, x)` for
`x < k` now hold the next generation; everything else (at red offsets) is
untouched. -/
theorem texRowPartial (w h y : ℕ) (hw : 0 < w) (hy : y + 1 < h)
    (d : ℕ → ℕ) (hd : TexInv w h y d) :
    ∀ k, k ≤ w → ∀ r c, r < h → c < w →
      ((List.range k).foldl (fun d2 x => texStep w (w * h * 4) y x d2) d) ((r * w + c) * 4) =
        if r = y + 1 ∧ c < k then 255 * (genAt w (y + 1)).getD c 0
        else d ((r * w + c) * 4) := by
  intro k
  induction k with
  | zero => intro _ r c _ _; simp
  | succ k ih =>
    intro hk r c hr hc
    rw [List.range_succ, List.foldl_append]
    simp only [List.foldl_cons, List.foldl_nil]
    set dk := (List.range k).foldl (fun d2 x => texStep w (w * h * 4) y x d2) d with hdk
    have hkw : k < w := hk
    -- the three neighbor reads of row y are unchanged by the prefix
    have hrow_y : ∀ j, j < w → dk ((y * w + j) * 4) = 255 * (genAt w y).getD j 0 := by
      intro j hj
      rw [ih (by omega) y j (by omega) hj, if_neg (by omega), hd y j (by omega) hj,
        if_pos (Nat.le_refl y)]
    have hcell : ∀ j, j < w →
        (if 0 < dk ((y * w + j) * 4) then 1 else 0) = (genAt w y).getD j 0 := by
      intro j hj
      rcases Nat.le_one_iff_eq_zero_or_eq_one.mp (genAt_getD_le_one w y j) with h0 | h1
      · rw [hrow_y j hj, h0]; simp
      · rw [hrow_y j hj, h1]; simp
    have hL : (if k = 0 then (0 : ℕ) else if 0 < dk ((y * w + (k - 1)) * 4) then 1 else 0)
        = (if k = 0 then 0 else (genAt w y).getD (k - 1) 0) := by
      split
      · rfl
      · exact hcell (k - 1) (by omega)
    have hR : (if k = w - 1 then (0 : ℕ)
          else if 0 < dk ((y * w + (k + 1)) * 4) then 1 else 0)
        = (if k = w - 1 then 0 else (genAt w y).getD (k + 1) 0) := by
      split
      · rfl
      · exact hcell (k + 1) (by omega)
    -- the value written at (y+1, k) is the next-generation cell
    have hval : nextState
        (if k = 0 then 0 else if 0 < dk ((y * w + (k - 1)) * 4) then 1 else 0)
        (if 0 < dk ((y * w + k) * 4) then 1 else 0)
        (if k = w - 1 then 0 else if 0 < dk ((y * w + (k + 1)) * 4) then 1 else 0)
        = (genAt w (y + 1)).getD k 0 := by
      rw [hL, hcell k hkw, hR]
      have : (genAt w (y + 1)).getD k 0 =
          nextState
            (if k = 0 then 0 else (genAt w y).getD (k - 1) 0)
            ((genAt w y).getD k 0)
            (if k = w - 1 then 0 else (genAt w y).getD (k + 1) 0) := by
        simp only [genAt]
        exact stepRowW_getD w (genAt w y) k hkw
      exact this.symm
    simp only [texStep, byteWr]
    rw [if_neg (by rintro ⟨-, heq⟩; omega :
      ¬ (((y + 1) * w + k) * 4 + 3 < w * h * 4 ∧
        (r * w + c) * 4 = ((y + 1) * w + k) * 4 + 3))]
    by_cases hmain : r = y + 1 ∧ c = k
    · obtain ⟨hr1, hc1⟩ := hmain
      subst hr1; subst hc1
      have hin : ((y + 1) * w + c) * 4 < w * h * 4 := by
        have h2 : (y + 2) * w ≤ h * w := Nat.mul_le_mul_right w (by omega)
        have h3 : (y + 2) * w = (y + 1) * w + w := by ring
        have h4 : h * w = w * h := Nat.mul_comm h w
        omega
      rw [if_pos ⟨hin, rfl⟩, hval, if_pos ⟨rfl, Nat.lt_succ_self c⟩]
      exact Nat.mul_comm _ _
    · rw [if_neg (by
        rintro ⟨-, heq⟩
        exact hmain ⟨(redIdx_inj hc hkw heq).1, (redIdx_inj hc hkw heq).2⟩)]
      rw [ih (by omega) r c hr hc]
      by_cases hrc : r = y + 1 ∧ c < k + 1
      · have hck : r = y + 1 ∧ c < k := ⟨hrc.1, by
          rcases Nat.lt_succ_iff_lt_or_eq.mp hrc.2 with hlt | heqc
          · exact hlt
          · exact absurd ⟨hrc.1, heqc⟩ hmain⟩
        rw [if_pos hck, if_pos hrc]
      · rw [if_neg (by rintro ⟨h1, h2⟩; exact hrc ⟨h1, by omega⟩), if_neg hrc]

theorem texRow_inv (w h y : ℕ) (hw : 0 < w) (hy : y + 1 < h)
    (d : ℕ → ℕ) (hd : TexInv w h y d) :
    TexInv w h (y + 1)
      ((List.range w).foldl (fun d2 x => texStep w (w * h * 4) y x d2) d) := by
  intro r c hr hc
  rw [texRowPartial w h y hw hy d hd w (Nat.le_refl w) r c hr hc]
  by_cases hry : r = y + 1
  · rw [if_pos ⟨hry, hc⟩, if_pos (by omega), hry]
  · rw [if_neg (by tauto), hd r c hr hc]
    by_cases hle : r ≤ y
    · rw [if_pos hle, if_pos (by omega)]
    · rw [if_neg hle, if_neg (by omega)]

theorem texEvolve_inv (w h : ℕ) (hw : 0 < w) (hh : 0 < h)
    (d0 : ℕ → ℕ) (h0 : TexInv w h 0 d0) :
    ∀ k, k ≤ h - 1 →
      TexInv w h k
        ((List.range k).foldl
          (fun d y => (List.range w).foldl (fun d2 x => texStep w (w * h * 4) y x d2) d)
          d0) := by
  intro k
  induction k with
  | zero => intro _; simpa using h0
  | succ k ih =>
    intro hk
    rw [List.range_succ, List.foldl_append]
    simp only [List.foldl_cons, List.foldl_nil]
    exact texRow_inv w h k hw (by omega) _ (ih (by omega))

/-- The red byte of the texture at `(r, c)` is 255 times the dense grid
cell there. -/
theorem texRed_eq (w h r c : ℕ) (hw : 0 < w) (hr : r < h) (hc : c < w) :
    texRed w h r c = 255 * (genAt w r).getD c 0 := by
  have hh : 0 < h := by omega
  have := texEvolve_inv w h hw hh _ (texInv_seeded w h hw hh) (h - 1) (Nat.le_refl _)
  have hfin := this r c hr hc
  rw [if_pos (by omega)] at hfin
  exact hfin

/-- C9: the dense-grid evolution and the packed-pixel texture evolution
compute the same automaton: for the same width, generation count and
center-cell seed, cell `(r, c)` is live in the dense grid iff the red byte
at `(r, c)` of the texture buffer is nonzero. -/
theorem texture_refines_grid (w h r c : ℕ) (hw : 0 < w) (hr : r < h) (hc : c < w) :
    texRed w h r c ≠ 0 ↔ ((rule30Grid w (h : ℤ)).getD r []).getD c 0 = 1 := by
  rw [texRed_eq w h r c hw hr hc,
    rule30Grid_getD w (h : ℤ) r (by omega : r ≤ ((h : ℤ) - 1).toNat)]
  have := genAt_getD_le_one w r c
  omega

/-- Witness for `texture_refines_grid` at width 7, height 2, cell (1, 2):
the texture's red byte there is nonzero and the dense grid cell is live. -/
theorem texture_refines_grid_witness :
    texRed 7 2 1 2 ≠ 0 ↔ ((rule30Grid 7 (2 : ℤ)).getD 1 []).getD 2 0 = 1 :=
  texture_refines_grid 7 2 1 2 (by decide) (by decide) (by decide)

/-- C1: the Rule 30 next-state rule is live exactly on the 3-bit patterns
1, 2, 3, 4 (and dead on 0, 5, 6, 7), and one evolution step on the width-7
seed row `[0,0,0,1,0,0,0]` produces `[0,0,1,1,1,0,0]`. -/
theorem rule30_truth_table_and_step :
    (nextState 0 0 0 = 0 ∧ nextState 0 0 1 = 1 ∧ nextState 0 1 0 = 1 ∧
     nextState 0 1 1 = 1 ∧ nextState 1 0 0 = 1 ∧ nextState 1 0 1 = 0 ∧
     nextState 1 1 0 = 0 ∧ nextState 1 1 1 = 0) ∧
    (∀ l c r : ℕ, l ≤ 1 → c ≤ 1 → r ≤ 1 →
      (nextState l c r = 1 ↔
        (l * 4 + c * 2 + r = 1 ∨ l * 4 + c * 2 + r = 2 ∨
         l * 4 + c * 2 + r = 3 ∨ l * 4 + c * 2 + r = 4))) ∧
    stepRowW 7 [0, 0, 0, 1, 0, 0, 0] = [0, 0, 1, 1, 1, 0, 0] := by
  refine ⟨by decide, ?_, by decide⟩
  intro l c r hl hc hr
  interval_cases l <;> interval_cases c <;> interval_cases r <;> decide

/-- Witness for the hypothesis-bearing middle conjunct of
`rule30_truth_table_and_step`, at the concrete neighborhood (0, 1, 0). -/
theorem rule30_truth_table_and_step_witness :
    nextState 0 1 0 = 1 ↔
      (0 * 4 + 1 * 2 + 0 = 1 ∨ 0 * 4 + 1 * 2 + 0 = 2 ∨
       0 * 4 + 1 * 2 + 0 = 3 ∨ 0 * 4 + 1 * 2 + 0 = 4) :=
  rule30_truth_table_and_step.2.1 0 1 0 (by decide) (by decide) (by decide)

/-- C6: neighbors outside `[0, width)` are treated as dead.  At column 0 the
left neighbor is the constant 0 and at column `width - 1` the right neighbor
is the constant 0; for `width = 1` a row `[s]` evolves to
`[nextState 0 s 0]`, and row 1 of the width-1 grid is the rule's output on
the pattern `(0, seed[0], 0)` (which is live, since the seed cell is 1 and
pattern 010 = 2 is a live pattern). -/
theorem boundary_columns_dead (w : ℕ) (prev : List ℕ) (hw : 0 < w) :
    ((stepRowW w prev).getD 0 0 =
      nextState 0 (prev.getD 0 0) (if w = 1 then 0 else prev.getD 1 0)) ∧
    ((stepRowW w prev).getD (w - 1) 0 =
      nextState (if w = 1 then 0 else prev.getD (w - 2) 0) (prev.getD (w - 1) 0) 0) ∧
    (∀ s : ℕ, stepRowW 1 [s] = [nextState 0 s 0]) ∧
    (∀ g : ℕ, (rule30Grid 1 ((g : ℤ) + 2)).getD 1 [] = [nextState 0 1 0] ∧
      seedRow 1 = [1] ∧ nextState 0 1 0 = 1) := by
  refine ⟨?_, ?_, fun s => rfl, fun g => ⟨?_, by decide, by decide⟩⟩
  · rw [stepRowW_getD w prev 0 hw]
    have h01 : (0 = w - 1) = (w = 1) := by
      apply propext; constructor <;> (intro; omega)
    simp [h01]
  · rw [stepRowW_getD w prev (w - 1) (by omega)]
    have h01 : (w - 1 = 0) = (w = 1) := by
      apply propext; constructor <;> (intro; omega)
    have h02 : w - 1 - 1 = w - 2 := by omega
    simp [h01, h02]
  · rw [rule30Grid_getD 1 ((g : ℤ) + 2) 1 (by omega)]
    show stepRowW 1 (genAt 1 0) = [nextState 0 1 0]
    have : genAt 1 0 = [1] := by decide
    rw [this]
    rfl

/-- Witness for `boundary_columns_dead` at width 3 and row `[1, 0, 1]`. -/
theorem boundary_columns_dead_witness :
    (stepRowW 3 [1, 0, 1]).getD 0 0 =
      nextState 0 ([1, 0, 1].getD 0 0) (if 3 = 1 then 0 else [1, 0, 1].getD 1 0) :=
  (boundary_columns_dead 3 [1, 0, 1] (by decide)).1

/-! ### Recursive solid generators

Each of the three components (`Cube` in part_000, `Tetrahedron` in part_001,
`Torus` in part_002) recursively renders child components while
`depth > 0`, decrementing `depth`.  The recursion is embedded with a `ℕ`
fuel equal to `depth.toNat`, which the wrappers keep in sync with the
JavaScript `depth` counter (for `depth ≤ 0` no children are generated, as in
the source). -/

/-- A rose tree of shape nodes. -/
inductive Tree (β : Type) : Type where
  | mk (data : β) (children : List (Tree β))

def Tree.data {β : Type} : Tree β → β
  | .mk d _ => d

def Tree.children {β : Type} : Tree β → List (Tree β)
  | .mk _ cs => cs

mutual

/-- Maximum root-to-leaf depth: 0 for a childless node. -/
def Tree.height {β : Type} : Tree β → ℕ
  | .mk _ cs => heightList cs

def heightList {β : Type} : List (Tree β) → ℕ
  | [] => 0
  | t :: ts => max (Tree.height t + 1) (heightList ts)

end

mutual

/-- All nodes of a tree (the node itself and, recursively, its subtrees). -/
def Tree.allNodes {β : Type} : Tree β → List (Tree β)
  | .mk d cs => .mk d cs :: allNodesList cs

def allNodesList {β : Type} : List (Tree β) → List (Tree β)
  | [] => []
  | t :: ts => t.allNodes ++ allNodesList ts

end

/-- The measure `f` of every node's data strictly decreases from parent to
child, everywhere in the tree. -/
def SizesDecreasing {β γ : Type} [LT γ] (f : β → γ) (t : Tree β) : Prop :=
  ∀ m ∈ t.allNodes, ∀ c ∈ m.children, f c.data < f m.data

/-- Palette lookup `l[i]` with a JavaScript-style result: `none` stands for
`undefined` (negative or too-large index). -/
def paletteGet (l : List String) (i : ℤ) : Option String :=
  if 0 ≤ i then l[i.toNat]? else none

/-! #### Cube (Menger sponge, part_000) -/

/-- `DEPTH_COLORS` of part_000 (5 entries). -/
def CUBE_DEPTH_COLORS : List String :=
  ["#ff5555", "#55ff55", "#5555ff", "#ffff55", "#ff55ff"]

structure CubeData where
  position : ℚ × ℚ × ℚ
  size : ℚ
  depth : ℤ
  colorIndex : ℤ

/-- The source's `colorIndex = Math.min(4 - depth, DEPTH_COLORS.length - 1)`. -/
def cubeColorIndex (depth : ℤ) : ℤ :=
  min (4 - depth) ((CUBE_DEPTH_COLORS.length : ℤ) - 1)

/-- The 20 subdivision offsets: the `x, y, z` triple loop over `-1, 0, 1`
keeping the cells with `sumOfAbs > 1`. -/
def threeVals : List ℤ := [-1, 0, 1]

def cubeOffsets : List (ℤ × ℤ × ℤ) :=
  (threeVals.flatMap fun x => threeVals.flatMap fun y => threeVals.map fun z => (x, y, z)).filter
    fun v => 1 < v.1.natAbs + v.2.1.natAbs + v.2.2.natAbs

def CubeAux (position : ℚ × ℚ × ℚ) (size : ℚ) (depth : ℤ) : ℕ → Tree CubeData
  | 0 => .mk ⟨position, size, depth, cubeColorIndex depth⟩ []
  | fuel + 1 =>
    .mk ⟨position, size, depth, cubeColorIndex depth⟩
      (cubeOffsets.map fun o =>
        CubeAux
          (position.1 + (o.1 : ℚ) * (size / 3),
           position.2.1 + (o.2.1 : ℚ) * (size / 3),
           position.2.2 + (o.2.2 : ℚ) * (size / 3))
          (size / 3) (depth - 1) fuel)

/-- The `Cube` component of part_000: children exist exactly while
`depth > 0`, each of size `size / 3` at offset `(x, y, z) * (size / 3)`. -/
def Cube (position : ℚ × ℚ × ℚ) (size : ℚ) (depth : ℤ) : Tree CubeData :=
  CubeAux position size depth depth.toNat

/-! #### Tetrahedron (Sierpinski, part_001) -/

/-- `DEPTH_COLORS` of part_001 (6 entries). -/
def TET_DEPTH_COLORS : List String :=
  ["#ff3333", "#33ff33", "#3333ff", "#ffff33", "#ff33ff", "#33ffff"]

structure TetData where
  position : ℚ × ℚ × ℚ
  size : ℚ
  depth : ℤ
  displayColor : Option String

/-- The four child vertices of the parent tetrahedron (top, bottom left,
bottom right, bottom front), verbatim from part_001. -/
def tetVertices (p : ℚ × ℚ × ℚ) (halfSize : ℚ) : List (ℚ × ℚ × ℚ) :=
  [(p.1, p.2.1 + halfSize, p.2.2),
   (p.1 - halfSize, p.2.1 - halfSize, p.2.2 - halfSize),
   (p.1 + halfSize, p.2.1 - halfSize, p.2.2 - halfSize),
   (p.1, p.2.1 - halfSize, p.2.2 + halfSize)]

/-- `color || DEPTH_COLORS[(5 - depth) % DEPTH_COLORS.length]` (JavaScript
`%` is the truncated remainder, `Int.tmod`). -/
def tetDisplayColor (color : Option String) (depth : ℤ) : Option String :=
  match color with
  | some c => some c
  | none => paletteGet TET_DEPTH_COLORS ((5 - depth).tmod 6)

def TetrahedronAux (p : ℚ × ℚ × ℚ) (size : ℚ) (depth : ℤ) (color : Option String) :
    ℕ → Tree TetData
  | 0 => .mk ⟨p, size, depth, tetDisplayColor color depth⟩ []
  | fuel + 1 =>
    .mk ⟨p, size, depth, tetDisplayColor color depth⟩
      ((tetVertices p (size / 2)).enum.map fun iv =>
        TetrahedronAux iv.2 (size / 2) (depth - 1)
          (paletteGet TET_DEPTH_COLORS ((5 - depth + (iv.1 : ℤ)).tmod 6)) fuel)

/-- The `Tetrahedron` component of part_001: 4 children of half size at the
parent's vertices, child `i` colored `DEPTH_COLORS[(5 - depth + i) % 6]`. -/
def Tetrahedron (p : ℚ × ℚ × ℚ) (size : ℚ) (depth : ℤ) (color : Option String) :
    Tree TetData :=
  TetrahedronAux p size depth color depth.toNat

/-! #### Torus ring (part_002) -/

/-- `DEPTH_COLORS` of part_002 (5 entries). -/
def TORUS_DEPTH_COLORS : List String :=
  ["#ff0000", "#00ff00", "#0000ff", "#ffff00", "#ff00ff"]

/-- The source's `DEPTH_COLORS[4 - depth] || '#ffffff'`: an out-of-range
index yields `undefined` and falls back to white. -/
def torusColor (depth : ℤ) : String :=
  (paletteGet TORUS_DEPTH_COLORS (4 - depth)).getD "#ffffff"

structure TorusData where
  /-- Position of the wrapping `<group>` in the parent's frame (for the
  root: its own `position` prop). -/
  groupPosition : ℝ × ℝ × ℝ
  radius : ℝ
  tubeRadius : ℝ
  depth : ℤ
  colorIndex : ℤ
  color : String

noncomputable def TorusAux (position groupPos : ℝ × ℝ × ℝ) (radius tubeRadius : ℝ)
    (depth : ℤ) : ℕ → Tree TorusData
  | 0 => .mk ⟨groupPos, radius, tubeRadius, depth, 4 - depth, torusColor depth⟩ []
  | fuel + 1 =>
    let childRadius := tubeRadius / (Real.pi / 2)
    let childTubeRadius := childRadius / 2
    .mk ⟨groupPos, radius, tubeRadius, depth, 4 - depth, torusColor depth⟩
      ((List.range 4).map fun i =>
        let angle := (i : ℝ) * Real.pi / 2
        TorusAux (0, 0, 0)
          (position.1 + Real.cos angle * radius,
           position.2.1 + Real.sin angle * radius,
           position.2.2)
          childRadius childTubeRadius (depth - 1) fuel)

/-- The `Torus` component of part_002: 4 children at angles `i * π / 2`
around the parent's major circle, with
`childRadius = tubeRadius / (π / 2)` and `childTubeRadius = childRadius / 2`;
each recursive call receives `position = [0, 0, 0]` inside a group placed at
the parent's `position` plus the angular offset. -/
noncomputable def Torus (position : ℝ × ℝ × ℝ) (radius tubeRadius : ℝ) (depth : ℤ) :
    Tree TorusData :=
  TorusAux position position radius tubeRadius depth depth.toNat

/-! ### Tree lemmas -/

theorem Tree.self_mem_allNodes {β : Type} (t : Tree β) : t ∈ t.allNodes := by
  cases t with
  | mk d cs => simp [Tree.allNodes]

theorem mem_allNodesList {β : Type} {m : Tree β} {l : List (Tree β)} :
    m ∈ allNodesList l ↔ ∃ c ∈ l, m ∈ c.allNodes := by
  induction l with
  | nil => simp [allNodesList]
  | cons t ts ih => simp [allNodesList, ih]

theorem mem_allNodes_iff {β : Type} {m : Tree β} {d : β} {cs : List (Tree β)} :
    m ∈ (Tree.mk d cs).allNodes ↔ m = Tree.mk d cs ∨ ∃ c ∈ cs, m ∈ c.allNodes := by
  simp [Tree.allNodes, mem_allNodesList]

theorem heightList_eq_of_const {β : Type} (l : List (Tree β)) (k : ℕ) (hne : l ≠ [])
    (h : ∀ c ∈ l, c.height = k) : heightList l = k + 1 := by
  induction l with
  | nil => exact absurd rfl hne
  | cons t ts ih =>
    simp only [heightList]
    rw [h t (List.mem_cons_self t ts)]
    cases ts with
    | nil => simp [heightList]
    | cons t2 ts2 =>
      rw [ih (by simp) (fun c hc => h c (List.mem_cons_of_mem _ hc))]
      omega

theorem sizesDecreasing_mk {β γ : Type} [LT γ] (f : β → γ) (d : β) (cs : List (Tree β))
    (hc : ∀ c ∈ cs, f c.data < f d) (hrec : ∀ c ∈ cs, SizesDecreasing f c) :
    SizesDecreasing f (.mk d cs) := by
  intro m hm c hcm
  rcases mem_allNodes_iff.mp hm with rfl | ⟨c0, hc0, hm0⟩
  · simp only [Tree.children] at hcm
    simp only [Tree.data]
    exact hc c hcm
  · exact hrec c0 hc0 m hm0 c hcm

theorem sizesDecreasing_leaf {β γ : Type} [LT γ] (f : β → γ) (d : β) :
    SizesDecreasing f (.mk d []) := by
  intro m hm c hcm
  rcases mem_allNodes_iff.mp hm with rfl | ⟨c0, hc0, -⟩
  · simp only [Tree.children, List.not_mem_nil] at hcm
  · simp at hc0

/-! ### Structural facts about the generated trees -/

theorem CubeAux_data (p : ℚ × ℚ × ℚ) (s : ℚ) (d : ℤ) (fuel : ℕ) :
    (CubeAux p s d fuel).data = ⟨p, s, d, cubeColorIndex d⟩ := by
  cases fuel <;> rfl

theorem TetrahedronAux_data (p : ℚ × ℚ × ℚ) (s : ℚ) (d : ℤ) (c : Option String) (fuel : ℕ) :
    (TetrahedronAux p s d c fuel).data = ⟨p, s, d, tetDisplayColor c d⟩ := by
  cases fuel <;> rfl

theorem TorusAux_data (pos gp : ℝ × ℝ × ℝ) (r t : ℝ) (d : ℤ) (fuel : ℕ) :
    (TorusAux pos gp r t d fuel).data = ⟨gp, r, t, d, 4 - d, torusColor d⟩ := by
  cases fuel <;> rfl

theorem CubeAux_height (p : ℚ × ℚ × ℚ) (s : ℚ) (d : ℤ) (fuel : ℕ) :
    (CubeAux p s d fuel).height = fuel := by
  induction fuel generalizing p s d with
  | zero => rfl
  | succ n ih =>
    show heightList _ = n + 1
    apply heightList_eq_of_const
    · intro hnil
      rw [List.map_eq_nil_iff] at hnil
      exact absurd hnil (by decide)
    · intro c hc
      obtain ⟨o, -, rfl⟩ := List.mem_map.mp hc
      exact ih _ _ _

theorem TetrahedronAux_height (p : ℚ × ℚ × ℚ) (s : ℚ) (d : ℤ) (c : Option String)
    (fuel : ℕ) : (TetrahedronAux p s d c fuel).height = fuel := by
  induction fuel generalizing p s d c with
  | zero => rfl
  | succ n ih =>
    show heightList _ = n + 1
    apply heightList_eq_of_const
    · intro hnil
      rw [List.map_eq_nil_iff] at hnil
      simp [tetVertices, List.enum] at hnil
    · intro c hc
      obtain ⟨iv, -, rfl⟩ := List.mem_map.mp hc
      exact ih _ _ _ _

theorem TorusAux_height (pos gp : ℝ × ℝ × ℝ) (r t : ℝ) (d : ℤ) (fuel : ℕ) :
    (TorusAux pos gp r t d fuel).height = fuel := by
  induction fuel generalizing pos gp r t d with
  | zero => rfl
  | succ n ih =>
    show heightList _ = n + 1
    apply heightList_eq_of_const
    · intro hnil
      rw [List.map_eq_nil_iff] at hnil
      exact absurd hnil (by decide)
    · intro c hc
      obtain ⟨i, -, rfl⟩ := List.mem_map.mp hc
      exact ih _ _ _ _ _

theorem CubeAux_sizesDecreasing (p : ℚ × ℚ × ℚ) (s : ℚ) (d : ℤ) (fuel : ℕ) (hs : 0 < s) :
    SizesDecreasing (fun x : CubeData => x.size) (CubeAux p s d fuel) := by
  induction fuel generalizing p s d with
  | zero => exact sizesDecreasing_leaf _ _
  | succ n ih =>
    apply sizesDecreasing_mk
    · intro c hc
      obtain ⟨o, -, rfl⟩ := List.mem_map.mp hc
      rw [CubeAux_data]
      show s / 3 < s
      linarith
    · intro c hc
      obtain ⟨o, -, rfl⟩ := List.mem_map.mp hc
      exact ih _ _ _ (by linarith)

theorem TetrahedronAux_sizesDecreasing (p : ℚ × ℚ × ℚ) (s : ℚ) (d : ℤ) (c : Option String)
    (fuel : ℕ) (hs : 0 < s) :
    SizesDecreasing (fun x : TetData => x.size) (TetrahedronAux p s d c fuel) := by
  induction fuel generalizing p s d c with
  | zero => exact sizesDecreasing_leaf _ _
  | succ n ih =>
    apply sizesDecreasing_mk
    · intro c hc
      obtain ⟨iv, -, rfl⟩ := List.mem_map.mp hc
      rw [TetrahedronAux_data]
      show s / 2 < s
      linarith
    · intro c hc
      obtain ⟨iv, -, rfl⟩ := List.mem_map.mp hc
      exact ih _ _ _ _ (by linarith)

theorem TorusAux_sizesDecreasing (fuel : ℕ) :
    ∀ (pos gp : ℝ × ℝ × ℝ) (r t : ℝ) (d : ℤ), 0 < r → t = r / 2 →
      SizesDecreasing (fun x : TorusData => x.radius) (TorusAux pos gp r t d fuel) := by
  have hpi : (1 : ℝ) < Real.pi := by linarith [Real.pi_gt_three]
  have hpi0 : Real.pi ≠ 0 := by linarith
  induction fuel with
  | zero => intro pos gp r t d _ _; exact sizesDecreasing_leaf _ _
  | succ n ih =>
    intro pos gp r t d hr ht
    have hchild : t / (Real.pi / 2) = r / Real.pi := by
      rw [ht]; field_simp
    simp only [TorusAux]
    apply sizesDecreasing_mk
    · intro c hc
      obtain ⟨i, -, rfl⟩ := List.mem_map.mp hc
      simp only [TorusAux_data]
      show t / (Real.pi / 2) < r
      rw [hchild]
      exact div_lt_self hr hpi
    · intro c hc
      obtain ⟨i, -, rfl⟩ := List.mem_map.mp hc
      refine ih _ _ _ _ _ ?_ rfl
      rw [hchild]
      positivity

/-! ### Claim theorems for the solid generators -/

/-- `cubeOffsets` evaluates to the 20 kept grid cells, in loop order. -/
theorem cubeOffsets_eq :
    cubeOffsets =
      [(-1, -1, -1), (-1, -1, 0), (-1, -1, 1), (-1, 0, -1), (-1, 0, 1),
       (-1, 1, -1), (-1, 1, 0), (-1, 1, 1), (0, -1, -1), (0, -1, 1),
       (0, 1, -1), (0, 1, 1), (1, -1, -1), (1, -1, 0), (1, -1, 1),
       (1, 0, -1), (1, 0, 1), (1, 1, -1), (1, 1, 0), (1, 1, 1)] := by
  decide

theorem Cube_children_succ (p : ℚ × ℚ × ℚ) (s : ℚ) (d : ℕ) :
    (Cube p s ((d : ℤ) + 1)).children =
      cubeOffsets.map fun o =>
        CubeAux
          (p.1 + (o.1 : ℚ) * (s / 3), p.2.1 + (o.2.1 : ℚ) * (s / 3),
           p.2.2 + (o.2.2 : ℚ) * (s / 3))
          (s / 3) ((d : ℤ) + 1 - 1) d := by
  unfold Cube
  rw [(by omega : ((d : ℤ) + 1).toNat = d + 1)]
  rfl

/-- C2: a cube node with positive remaining depth has exactly 20 children,
each of size `parentSize / 3`; the children are exactly the cells
`(x, y, z) ∈ {-1, 0, 1}^3` with `|x| + |y| + |z| > 1`, at position
`parent + (x, y, z) * (parentSize / 3)`. -/
theorem cube_twenty_children (p : ℚ × ℚ × ℚ) (s : ℚ) (d : ℕ) :
    ((Cube p s ((d : ℤ) + 1)).children.length = 20) ∧
    (∀ c ∈ (Cube p s ((d : ℤ) + 1)).children,
      c.data.size = s / 3 ∧ c.data.depth = (d : ℤ)) ∧
    (∀ c ∈ (Cube p s ((d : ℤ) + 1)).children, ∃ x y z : ℤ,
      x.natAbs ≤ 1 ∧ y.natAbs ≤ 1 ∧ z.natAbs ≤ 1 ∧
      1 < x.natAbs + y.natAbs + z.natAbs ∧
      c.data.position = (p.1 + (x : ℚ) * (s / 3), p.2.1 + (y : ℚ) * (s / 3),
        p.2.2 + (z : ℚ) * (s / 3))) ∧
    (∀ x y z : ℤ, x.natAbs ≤ 1 → y.natAbs ≤ 1 → z.natAbs ≤ 1 →
      1 < x.natAbs + y.natAbs + z.natAbs →
      ∃ c ∈ (Cube p s ((d : ℤ) + 1)).children,
        c.data.position = (p.1 + (x : ℚ) * (s / 3), p.2.1 + (y : ℚ) * (s / 3),
          p.2.2 + (z : ℚ) * (s / 3))) := by
  rw [Cube_children_succ]
  refine ⟨by rw [List.length_map, cubeOffsets_eq]; rfl, ?_, ?_, ?_⟩
  · intro c hc
    obtain ⟨o, -, rfl⟩ := List.mem_map.mp hc
    rw [CubeAux_data]
    refine ⟨rfl, ?_⟩
    show (d : ℤ) + 1 - 1 = (d : ℤ)
    omega
  · intro c hc
    obtain ⟨o, ho, rfl⟩ := List.mem_map.mp hc
    refine ⟨o.1, o.2.1, o.2.2, ?_, ?_, ?_, ?_, by rw [CubeAux_data]⟩ <;>
      · rw [cubeOffsets_eq] at ho
        fin_cases ho <;> decide
  · intro x y z hx hy hz hsum
    have hmem : (x, y, z) ∈ cubeOffsets := by
      rw [cubeOffsets_eq]
      have hx1 : x = -1 ∨ x = 0 ∨ x = 1 := by omega
      have hy1 : y = -1 ∨ y = 0 ∨ y = 1 := by omega
      have hz1 : z = -1 ∨ z = 0 ∨ z = 1 := by omega
      rcases hx1 with rfl | rfl | rfl <;> rcases hy1 with rfl | rfl | rfl <;>
        rcases hz1 with rfl | rfl | rfl <;>
        first
          | decide
          | exact absurd hsum (by decide)
    exact ⟨_, List.mem_map.mpr ⟨(x, y, z), hmem, rfl⟩, by rw [CubeAux_data]⟩

/-- Witness for `cube_twenty_children`: the offset `(1, 1, 0)` (valid:
`|1| + |1| + |0| = 2 > 1`) yields a child of the depth-1 cube of size 3. -/
theorem cube_twenty_children_witness :
    ∃ c ∈ (Cube ((0 : ℚ), (0 : ℚ), (0 : ℚ)) 3 (((0 : ℕ) : ℤ) + 1)).children,
      c.data.position =
        (((0 : ℚ), (0 : ℚ), (0 : ℚ)).1 + ((1 : ℤ) : ℚ) * (3 / 3),
         ((0 : ℚ), (0 : ℚ), (0 : ℚ)).2.1 + ((1 : ℤ) : ℚ) * (3 / 3),
         ((0 : ℚ), (0 : ℚ), (0 : ℚ)).2.2 + ((0 : ℤ) : ℚ) * (3 / 3)) :=
  (cube_twenty_children ((0 : ℚ), (0 : ℚ), (0 : ℚ)) 3 0).2.2.2 1 1 0
    (by decide) (by decide) (by decide) (by decide)

/-- C3: for every `maxDepth ≥ 0` and every shape kind, the generated tree's
maximum root-to-leaf depth is exactly `maxDepth`, and along every
root-to-leaf path the size (major radius, for the torus) strictly
decreases.  The torus is generated with the source's 1:2 tube ratio at the
root (`tubeRadius = radius / 2`, as in the default `radius = 4`,
`tubeRadius = 2`). -/
theorem tree_depth_and_size (p : ℚ × ℚ × ℚ) (s : ℚ) (q : ℝ × ℝ × ℝ) (r : ℝ)
    (d e : ℕ) (hs : 0 < s) (hr : 0 < r) :
    ((Cube p s (d : ℤ)).height = d ∧ (Tetrahedron p s (d : ℤ) none).height = d ∧
      (Torus q r (r / 2) (e : ℤ)).height = e) ∧
    (SizesDecreasing (fun x : CubeData => x.size) (Cube p s (d : ℤ)) ∧
      SizesDecreasing (fun x : TetData => x.size) (Tetrahedron p s (d : ℤ) none) ∧
      SizesDecreasing (fun x : TorusData => x.radius) (Torus q r (r / 2) (e : ℤ))) := by
  have hd : ((d : ℤ)).toNat = d := Int.toNat_natCast d
  have he : ((e : ℤ)).toNat = e := Int.toNat_natCast e
  unfold Cube Tetrahedron Torus
  rw [hd, he]
  exact ⟨⟨CubeAux_height p s (d : ℤ) d, TetrahedronAux_height p s (d : ℤ) none d,
      TorusAux_height q q r (r / 2) (e : ℤ) e⟩,
    CubeAux_sizesDecreasing p s (d : ℤ) d hs,
    TetrahedronAux_sizesDecreasing p s (d : ℤ) none d hs,
    TorusAux_sizesDecreasing e q q r (r / 2) (e : ℤ) hr rfl⟩

/-- Witness for `tree_depth_and_size`: cube and tetrahedron of size 3 at
depth 2, torus of radius 4 (tube radius 2) at depth 1. -/
theorem tree_depth_and_size_witness :
    ((Cube (0, 0, 0) 3 ((2 : ℕ) : ℤ)).height = 2 ∧
      (Tetrahedron (0, 0, 0) 3 ((2 : ℕ) : ℤ) none).height = 2 ∧
      (Torus (0, 0, 0) 4 (4 / 2) ((1 : ℕ) : ℤ)).height = 1) ∧
    (SizesDecreasing (fun x : CubeData => x.size) (Cube (0, 0, 0) 3 ((2 : ℕ) : ℤ)) ∧
      SizesDecreasing (fun x : TetData => x.size)
        (Tetrahedron (0, 0, 0) 3 ((2 : ℕ) : ℤ) none) ∧
      SizesDecreasing (fun x : TorusData => x.radius)
        (Torus (0, 0, 0) 4 (4 / 2) ((1 : ℕ) : ℤ))) :=
  tree_depth_and_size (0, 0, 0) 3 (0, 0, 0) 4 2 1 (by decide) zero_lt_four

/-! ### Color invariants -/

theorem CubeAux_colorIndex (p : ℚ × ℚ × ℚ) (s : ℚ) (d : ℤ) (fuel : ℕ) :
    ∀ m ∈ (CubeAux p s d fuel).allNodes,
      m.data.colorIndex = cubeColorIndex m.data.depth := by
  induction fuel generalizing p s d with
  | zero =>
    intro m hm
    simp only [CubeAux] at hm
    rcases mem_allNodes_iff.mp hm with rfl | ⟨c0, hc0, -⟩
    · rfl
    · simp at hc0
  | succ n ih =>
    intro m hm
    simp only [CubeAux] at hm
    rcases mem_allNodes_iff.mp hm with rfl | ⟨c0, hc0, hm0⟩
    · rfl
    · obtain ⟨o, -, rfl⟩ := List.mem_map.mp hc0
      exact ih _ _ _ m hm0

theorem TorusAux_colorInvariant (fuel : ℕ) :
    ∀ (pos gp : ℝ × ℝ × ℝ) (r t : ℝ) (d : ℤ),
      ∀ m ∈ (TorusAux pos gp r t d fuel).allNodes,
        m.data.colorIndex = 4 - m.data.depth ∧
        m.data.color = torusColor m.data.depth := by
  induction fuel with
  | zero =>
    intro pos gp r t d m hm
    simp only [TorusAux] at hm
    rcases mem_allNodes_iff.mp hm with rfl | ⟨c0, hc0, -⟩
    · exact ⟨rfl, rfl⟩
    · simp at hc0
  | succ n ih =>
    intro pos gp r t d m hm
    simp only [TorusAux] at hm
    rcases mem_allNodes_iff.mp hm with rfl | ⟨c0, hc0, hm0⟩
    · exact ⟨rfl, rfl⟩
    · obtain ⟨i, -, rfl⟩ := List.mem_map.mp hc0
      exact ih _ _ _ _ _ m hm0

/-- C4 counterexample: at the source's default cube call
(`size = 3`, `depth = 3`, so `maxDepth = 3`), the root node
(`depthRemaining = 3`) has `colorIndex = min (4 - 3) 4 = 1`, not
`clamp(maxDepth - depthRemaining, 0, paletteSize - 1) = 0`: the source's
formula hardcodes 4 instead of using `maxDepth`. -/
theorem cube_colorIndex_cex :
    (Cube (0, 0, 0) 3 3).data.depth = 3 ∧
    (Cube (0, 0, 0) 3 3).data.colorIndex = 1 ∧
    (Cube (0, 0, 0) 3 3).data.colorIndex ≠
      max 0 (min ((3 : ℤ) - 3) ((CUBE_DEPTH_COLORS.length : ℤ) - 1)) :=
  ⟨rfl, by decide, by decide⟩

/-- C4 amended: `colorIndex` is independent of `maxDepth` and has no lower
clamp.  Every cube node has `colorIndex = min (4 - depthRemaining) (paletteSize - 1)`
(`cubeColorIndex`), which is 4 at `depthRemaining = 0` (so the claim's
`maxDepth = 10` example still maps to 4) but negative for
`depthRemaining > 4` (e.g. `-6` at `depthRemaining = 10`); every torus node
has the fully unclamped `colorIndex = 4 - depthRemaining`. -/
theorem colorIndex_formula (p : ℚ × ℚ × ℚ) (s : ℚ) (d : ℤ) (q : ℝ × ℝ × ℝ)
    (r t : ℝ) (e : ℤ) :
    (∀ m ∈ (Cube p s d).allNodes,
      m.data.colorIndex = cubeColorIndex m.data.depth) ∧
    (∀ m ∈ (Torus q r t e).allNodes, m.data.colorIndex = 4 - m.data.depth) ∧
    cubeColorIndex 0 = 4 ∧ cubeColorIndex 10 = -6 := by
  refine ⟨?_, ?_, by decide, by decide⟩
  · intro m hm
    have hm' : m ∈ (CubeAux p s d d.toNat).allNodes := hm
    exact CubeAux_colorIndex p s d d.toNat m hm'
  · intro m hm
    have hm' : m ∈ (TorusAux q q r t e e.toNat).allNodes := hm
    exact (TorusAux_colorInvariant e.toNat q q r t e m hm').1

/-- Witness for `colorIndex_formula` at the root of the default cube. -/
theorem colorIndex_formula_witness :
    (Cube (0, 0, 0) 3 3).data.colorIndex =
      cubeColorIndex ((Cube (0, 0, 0) 3 3).data.depth) :=
  (colorIndex_formula (0, 0, 0) 3 3 (0, 0, 0) 4 2 6).1 _ (Tree.self_mem_allNodes _)

/-- C10: the torus color index `4 - depth` is unclamped, and whenever it
falls outside the palette range `[0, 4]` the node's color is the fallback
`"#ffffff"`; in particular the root at the source's default `depth = 6` has
`colorIndex = -2` and is white. -/
theorem torus_color_white_fallback (q : ℝ × ℝ × ℝ) (r t : ℝ) (e d : ℤ)
    (hd : 4 - d < 0 ∨ 4 < 4 - d) :
    torusColor d = "#ffffff" ∧
    (∀ m ∈ (Torus q r t e).allNodes, m.data.color = torusColor m.data.depth) ∧
    (Torus q r t 6).data.colorIndex = -2 ∧
    (Torus q r t 6).data.color = "#ffffff" := by
  refine ⟨?_, ?_, rfl, rfl⟩
  · unfold torusColor paletteGet
    rcases hd with hneg | hbig
    · rw [if_neg (by omega)]; rfl
    · rw [if_pos (by omega),
        List.getElem?_eq_none (by show (5 : ℕ) ≤ _; omega)]
      rfl
  · intro m hm
    have hm' : m ∈ (TorusAux q q r t e e.toNat).allNodes := hm
    exact (TorusAux_colorInvariant e.toNat q q r t e m hm').2

/-- Witness for `torus_color_white_fallback` at `depth = 6`. -/
theorem torus_color_white_fallback_witness :
    torusColor 6 = "#ffffff" :=
  (torus_color_white_fallback (0, 0, 0) 4 2 6 6 (by decide)).1

/-! ### Torus subdivision and the child-radius bug -/

/-- The children of the default torus root, by computation. -/
theorem torus_children_default :
    (Torus (0, 0, 0) 4 2 6).children =
      (List.range 4).map fun i =>
        TorusAux (0, 0, 0)
          ((0 : ℝ) + Real.cos ((i : ℝ) * Real.pi / 2) * 4,
           (0 : ℝ) + Real.sin ((i : ℝ) * Real.pi / 2) * 4, (0 : ℝ))
          (2 / (Real.pi / 2)) (2 / (Real.pi / 2) / 2) ((6 : ℤ) - 1) 5 := rfl

/-- C5: at the source's default root (`radius = 4`, `tubeRadius = 2`,
`depth = 6`) the torus generates exactly 4 children at angles `i * π / 2`,
`i = 0, 1, 2, 3` (group positions `(4,0,0), (0,4,0), (-4,0,0), (0,-4,0)`),
each child keeping the 1:2 tube ratio — but each child's major radius is
`tubeRadius / (π / 2) = 4 / π ≈ 1.27`, NOT the parent's tube radius 2
claimed by the source's own comment ("This makes the child's major radius
match parent's tube radius"). -/
theorem torus_child_radius_mismatch :
    ((Torus (0, 0, 0) 4 2 6).children.length = 4) ∧
    (((Torus (0, 0, 0) 4 2 6).children.map fun c => c.data.radius) =
      [2 / (Real.pi / 2), 2 / (Real.pi / 2), 2 / (Real.pi / 2), 2 / (Real.pi / 2)]) ∧
    (((Torus (0, 0, 0) 4 2 6).children.map fun c => c.data.tubeRadius) =
      [2 / (Real.pi / 2) / 2, 2 / (Real.pi / 2) / 2, 2 / (Real.pi / 2) / 2,
       2 / (Real.pi / 2) / 2]) ∧
    ((Torus (0, 0, 0) 4 2 6).data.tubeRadius = 2) ∧
    (2 / (Real.pi / 2) ≠ 2) ∧
    (((Torus (0, 0, 0) 4 2 6).children.map fun c => c.data.groupPosition) =
      [(4, 0, 0), (0, 4, 0), (-4, 0, 0), (0, -4, 0)]) := by
  have h4 : List.range 4 = [0, 1, 2, 3] := rfl
  have e2 : ((2 : ℕ) : ℝ) * Real.pi / 2 = Real.pi := by push_cast; ring
  have e3 : ((3 : ℕ) : ℝ) * Real.pi / 2 = Real.pi + Real.pi / 2 := by push_cast; ring
  refine ⟨rfl, ?_, ?_, rfl, ?_, ?_⟩
  · rw [torus_children_default, h4]
    simp [TorusAux_data]
  · rw [torus_children_default, h4]
    simp [TorusAux_data]
  · intro hcon
    have hpi0 : Real.pi ≠ 0 := Real.pi_ne_zero
    rw [div_eq_iff (by positivity : Real.pi / 2 ≠ 0)] at hcon
    nlinarith [Real.pi_gt_three]
  · rw [torus_children_default, h4]
    simp [TorusAux_data]
    have g3 : (3 : ℝ) * Real.pi / 2 = Real.pi + Real.pi / 2 := by ring
    rw [g3, Real.cos_add, Real.sin_add, Real.cos_pi, Real.sin_pi, Real.cos_pi_div_two,
      Real.sin_pi_div_two]
    norm_num

/-! ### Absence of input validation -/

/-- C7 counterexample: none of the generators validates its inputs or
raises an error.  With `depth = -1` and `size = -3` the cube generator
returns a degenerate childless node carrying the negative size; the torus
likewise; the automaton "grid" for `width = 0`, `generationCount = 0` is a
single seed row (with the phantom cell that JavaScript array auto-extension
creates), and a negative generation count still yields the seed row. -/
theorem no_validation_cex :
    (Cube (0, 0, 0) (-3) (-1)).children = [] ∧
    (Cube (0, 0, 0) (-3) (-1)).data.size = -3 ∧
    (Tetrahedron (0, 0, 0) (-5) (-2) none).children = [] ∧
    (Torus (0, 0, 0) (-4) (-2) (-1)).children = [] ∧
    (Torus (0, 0, 0) (-4) (-2) (-1)).data.radius = -4 ∧
    rule30Grid 0 0 = [[1]] ∧
    rule30Grid 5 (-7) = [seedRow 5] :=
  ⟨rfl, rfl, rfl, rfl, rfl, rfl, rfl⟩

/-- C7 amended: the generators perform no input validation and have no
error path.  For `maxDepth ≤ 0` each solid generator returns a single
childless node that carries the given (possibly non-positive) size or
radius unchanged, and for `generationCount ≤ 0` the automaton returns the
single seed row — callers always receive such a degenerate structure
rather than an `InvalidParameter` error. -/
theorem no_validation (p : ℚ × ℚ × ℚ) (s : ℚ) (q : ℝ × ℝ × ℝ) (r t : ℝ)
    (d : ℤ) (w : ℕ) (g : ℤ) (hd : d ≤ 0) (hg : g ≤ 0) :
    (Cube p s d).children = [] ∧ (Cube p s d).data.size = s ∧
    (Tetrahedron p s d none).children = [] ∧
    (Tetrahedron p s d none).data.size = s ∧
    (Torus q r t d).children = [] ∧ (Torus q r t d).data.radius = r ∧
    rule30Grid w g = [seedRow w] := by
  have hdt : d.toNat = 0 := by omega
  have hgt : (g - 1).toNat = 0 := by omega
  unfold Cube Tetrahedron Torus rule30Grid
  rw [hdt, hgt]
  exact ⟨rfl, rfl, rfl, rfl, rfl, rfl, rfl⟩

/-- Witness for `no_validation` at the concrete invalid inputs
`size = -3`, `depth = -1`, `width = 0`, `generationCount = 0`. -/
theorem no_validation_witness :
    (Cube (0, 0, 0) (-3) (-1)).children = [] ∧
    (Cube (0, 0, 0) (-3) (-1)).data.size = -3 ∧
    (Tetrahedron (0, 0, 0) (-3) (-1) none).children = [] ∧
    (Tetrahedron (0, 0, 0) (-3) (-1) none).data.size = -3 ∧
    (Torus (0, 0, 0) (-4) (-2) (-1)).children = [] ∧
    (Torus (0, 0, 0) (-4) (-2) (-1)).data.radius = -4 ∧
    rule30Grid 0 0 = [seedRow 0] :=
  no_validation (0, 0, 0) (-3) (0, 0, 0) (-4) (-2) (-1) 0 0 (by decide) (by decide)

/-! ### Colors per depth level -/

/-- C8 counterexample: in the tetrahedron tree, two sibling children (same
depth level) of a `depth = 1` root receive different colors — the child
color depends on the sibling index `i`, not on the depth level alone. -/
theorem tet_sibling_colors_cex :
    (((Tetrahedron (0, 0, 0) 5 1 none).children.getD 0
        (Tree.mk ⟨(0, 0, 0), 0, 0, none⟩ [])).data.depth =
      ((Tetrahedron (0, 0, 0) 5 1 none).children.getD 1
        (Tree.mk ⟨(0, 0, 0), 0, 0, none⟩ [])).data.depth) ∧
    (((Tetrahedron (0, 0, 0) 5 1 none).children.getD 0
        (Tree.mk ⟨(0, 0, 0), 0, 0, none⟩ [])).data.displayColor ≠
      ((Tetrahedron (0, 0, 0) 5 1 none).children.getD 1
        (Tree.mk ⟨(0, 0, 0), 0, 0, none⟩ [])).data.displayColor) := by
  exact ⟨rfl, by decide⟩

/-- C8 amended: cube and torus node colors are a function of the depth
level alone (two nodes of equal `depthRemaining` get equal color), but
tetrahedron child colors additionally depend on the sibling index: child
`i` gets `DEPTH_COLORS[(5 - depth + i) % 6]`, so e.g. the default root
(`depth = 4`) has its four children colored with palette entries 1–4. -/
theorem colors_by_level (p : ℚ × ℚ × ℚ) (s : ℚ) (d : ℤ) (q : ℝ × ℝ × ℝ)
    (r t : ℝ) (e : ℤ) :
    (∀ m1 ∈ (Cube p s d).allNodes, ∀ m2 ∈ (Cube p s d).allNodes,
      m1.data.depth = m2.data.depth → m1.data.colorIndex = m2.data.colorIndex) ∧
    (∀ m1 ∈ (Torus q r t e).allNodes, ∀ m2 ∈ (Torus q r t e).allNodes,
      m1.data.depth = m2.data.depth →
        m1.data.colorIndex = m2.data.colorIndex ∧ m1.data.color = m2.data.color) ∧
    (((Tetrahedron (0, 0, 0) 5 4 none).children.map fun c => c.data.displayColor) =
      [some "#33ff33", some "#3333ff", some "#ffff33", some "#ff33ff"]) := by
  refine ⟨?_, ?_, by decide⟩
  · intro m1 h1 m2 h2 hdep
    have h1' : m1 ∈ (CubeAux p s d d.toNat).allNodes := h1
    have h2' : m2 ∈ (CubeAux p s d d.toNat).allNodes := h2
    rw [CubeAux_colorIndex p s d d.toNat m1 h1',
      CubeAux_colorIndex p s d d.toNat m2 h2', hdep]
  · intro m1 h1 m2 h2 hdep
    have h1' : m1 ∈ (TorusAux q q r t e e.toNat).allNodes := h1
    have h2' : m2 ∈ (TorusAux q q r t e e.toNat).allNodes := h2
    have a1 := TorusAux_colorInvariant e.toNat q q r t e m1 h1'
    have a2 := TorusAux_colorInvariant e.toNat q q r t e m2 h2'
    rw [a1.1, a2.1, a1.2, a2.2, hdep]
    exact ⟨rfl, rfl⟩

/-- Witness for `colors_by_level` at the root of the default cube. -/
theorem colors_by_level_witness :
    (Cube (0, 0, 0) 3 3).data.colorIndex = (Cube (0, 0, 0) 3 3).data.colorIndex :=
  (colors_by_level (0, 0, 0) 3 3 (0, 0, 0) 4 2 6).1 _ (Tree.self_mem_allNodes _) _
    (Tree.self_mem_allNodes _) rfl

end FractalDemo
